import Mathlib

/-!
# Verification of the `oasis` virtual clock (`src/oasis/clock/virtual_clock.py`)

This file gives a shallow embedding of the `VirtualClock` dataclass and proves
or refutes the frozen specification claims about it.

Modelling conventions:
* Python `int` is modelled as `Int` (arbitrary precision, as in Python).
* `Dict` is modelled as an association list (`lookupA` / `insertA`), `Set[int]`
  as a `List Int` used up to membership (the code only tests membership and
  inserts).
* Python's builtin `hash` applied to the tuple
  `(seed, tick, agent_id, action_hint, event_index)` is modelled as an
  arbitrary function parameter `pyhash : HashFn`: within one process it is a
  fixed deterministic function of the tuple, which is all the code relies on.
* `random.Random(local_seed).randint(a, b)` is modelled as an arbitrary
  function parameter `randint : RandFn` applied to `(local_seed, a, b)`; it is
  a fixed deterministic function of its three arguments.  Where a claim needs
  the documented contract of `randint` (the result lies in `[a, b]` when
  `a ≤ b`), the hypothesis `RandInRange randint` supplies it.
* The stored shared generator `self._rng = random.Random(self.seed)` is never
  consulted by any modelled operation; it is kept as the field `rng`,
  initialised to the seed it was built from.
* Calendar instants (`datetime`) are modelled as integer microseconds (the
  exact resolution of Python `datetime`) relative to an arbitrary origin; the
  `epoch` field is such an instant.  `timedelta.total_seconds()` followed by
  `int(...)` is truncation-toward-zero of microseconds divided by 10^6,
  i.e. `Int.tdiv`.
* `event_time` returns `Option (Int × VirtualClock)`: `none` models the
  `TypeError` Python would raise on `return parent_time + 1` when
  `parent_time` is `None` (reachable only when `tick_duration_s ≤ 0`).
-/

/-- Type of the modelled Python builtin `hash` applied to the 5-tuple
`(seed, tick, agent_id, action_hint, event_index)` (line 183 of the source). -/
abbrev HashFn := Int → Int → Int → String → Int → Int

/-- Type of the modelled `random.Random(s).randint(a, b)` (lines 184-187),
taking the local seed and the inclusive bounds. -/
abbrev RandFn := Int → Int → Int → Int

/-- The documented contract of `randint(a, b)`: a result in `[a, b]`
whenever the range is nonempty. -/
def RandInRange (randint : RandFn) : Prop :=
  ∀ s a b : Int, a ≤ b → a ≤ randint s a b ∧ randint s a b ≤ b

/-- Association-list lookup, modelling Python `dict` access. -/
def lookupA {α β : Type} [DecidableEq α] : List (α × β) → α → Option β
  | [], _ => none
  | (k, v) :: rest, key => if k = key then some v else lookupA rest key

/-- Association-list update, modelling Python `dict` assignment. -/
def insertA {α β : Type} [DecidableEq α] : List (α × β) → α → β → List (α × β)
  | [], key, val => [(key, val)]
  | (k, v) :: rest, key, val =>
    if k = key then (key, val) :: rest else (k, v) :: insertA rest key val

/-- The uniqueness-resolution loop of `event_time` (source lines 191-197):
while the candidate is already used and attempts remain, step to the next
value, wrapping from `mx` back to `mn`.  `fuel` is the remaining number of
attempts (`max_attempts - attempts`). -/
def probe (used : List Int) (mn mx : Int) : Int → Nat → Int
  | g, 0 => g
  | g, fuel + 1 =>
    if g ∈ used then
      probe used mn mx (if g + 1 > mx then mn else g + 1) fuel
    else g

/-- The `VirtualClock` dataclass (source lines 29-92).  Field order and names
follow the source: configuration (`tick_duration_s`, `epoch`, `seed`), state
(`tick`), internal tracking (`rng` for `_rng`, `event_counter` for
`_event_counter`, `used_times` for `_used_times`). -/
structure VirtualClock where
  tick_duration_s : Int
  epoch : Int
  seed : Int
  tick : Int
  rng : Int
  event_counter : List ((Int × Int) × Int)
  used_times : List (Int × List Int)
deriving DecidableEq, Repr

/-- Construction (`__post_init__`, lines 88-92): `tick` starts at 0, the
shared generator is seeded with `seed`, both tracking maps start empty. -/
def mkClock (tick_duration_s epoch seed : Int) : VirtualClock :=
  { tick_duration_s := tick_duration_s, epoch := epoch, seed := seed,
    tick := 0, rng := seed, event_counter := [], used_times := [] }

/-- `advance_tick(n)` (lines 94-107): `self.tick += n` and
`self._event_counter = {}` — no validation of `n`, nothing else touched. -/
def advance_tick (c : VirtualClock) (n : Int) : VirtualClock :=
  { c with tick := c.tick + n, event_counter := [] }

/-- `tick_start_s()` (lines 109-116). -/
def tick_start_s (c : VirtualClock) : Int :=
  c.tick * c.tick_duration_s

/-- `tick_end_s()` (lines 118-125). -/
def tick_end_s (c : VirtualClock) : Int :=
  (c.tick + 1) * c.tick_duration_s - 1

/-- `min_time` of `event_time` (lines 163-167): `parent_time + 1` when a
parent is supplied, else the start of the current tick. -/
def minTime (c : VirtualClock) (parent_time : Option Int) : Int :=
  match parent_time with
  | some p => p + 1
  | none => tick_start_s c

/-- `self._event_counter.get((self.tick, agent_id), 0)` (line 179). -/
def countGet (c : VirtualClock) (agent_id : Int) : Int :=
  (lookupA c.event_counter (c.tick, agent_id)).getD 0

/-- The used-timestamp set recorded for tick `t`
(`self._used_times` entry, defaulting to empty — line 190). -/
def usedAt (c : VirtualClock) (t : Int) : List Int :=
  (lookupA c.used_times t).getD []

/-- `self._used_times.setdefault(self.tick, set())` (line 190). -/
def usedGet (c : VirtualClock) : List Int :=
  usedAt c c.tick

/-- The timestamp value computed on the main (non-overflow) path of
`event_time` (lines 177-200): draw `randint(local_seed, min_time, max_time)`
with `local_seed = hash((seed, tick, agent_id, action_hint, event_index))`,
then run the uniqueness probe with `max_attempts = max_time - min_time + 1`. -/
def synthT (pyhash : HashFn) (randint : RandFn) (c : VirtualClock)
    (agent_id : Int) (parent_time : Option Int) (action_hint : String) : Int :=
  probe (usedGet c) (minTime c parent_time) (tick_end_s c)
    (randint (pyhash c.seed c.tick agent_id action_hint (countGet c agent_id))
      (minTime c parent_time) (tick_end_s c))
    (tick_end_s c - minTime c parent_time + 1).toNat

/-- The state after the main path of `event_time`: the per-(tick, agent)
counter is incremented (line 180) and the accepted value is added to the
current tick's used set (lines 190, 199). -/
def synthState (pyhash : HashFn) (randint : RandFn) (c : VirtualClock)
    (agent_id : Int) (parent_time : Option Int) (action_hint : String) :
    VirtualClock :=
  { c with
    event_counter :=
      insertA c.event_counter (c.tick, agent_id) (countGet c agent_id + 1),
    used_times :=
      insertA c.used_times c.tick
        (synthT pyhash randint c agent_id parent_time action_hint ::
          usedGet c) }

/-- `event_time(agent_id, parent_time, action_hint)` (lines 127-200).
If `min_time > max_time` the code returns `parent_time + 1` before touching
any state (lines 171-175); with no parent that line would raise `TypeError`
(`None + 1`), modelled as `none`.  Otherwise the main path returns the drawn
and probed timestamp together with the updated state. -/
def event_time (pyhash : HashFn) (randint : RandFn) (c : VirtualClock)
    (agent_id : Int) (parent_time : Option Int) (action_hint : String) :
    Option (Int × VirtualClock) :=
  if tick_end_s c < minTime c parent_time then
    match parent_time with
    | some p => some (p + 1, c)
    | none => none
  else
    some (synthT pyhash randint c agent_id parent_time action_hint,
      synthState pyhash randint c agent_id parent_time action_hint)

/-- `to_datetime(v)` (lines 202-215): `epoch + timedelta(seconds=v)`,
as an instant in integer microseconds. -/
def to_datetime (c : VirtualClock) (virtual_time_s : Int) : Int :=
  c.epoch + virtual_time_s * 1000000

/-- `from_datetime(dt)` (lines 229-240): `int((dt - epoch).total_seconds())`.
Python `int()` truncates toward zero, so this is `Int.tdiv` of the
microsecond difference by 10^6. -/
def from_datetime (c : VirtualClock) (dt : Int) : Int :=
  Int.tdiv (dt - c.epoch) 1000000

/-- Written from the spec's words, for comparison with `from_datetime`:
"`from_calendar(instant)` returns `floor(instant - epoch)` in whole
seconds" — floor division of the microsecond difference by 10^6. -/
def from_calendar_spec (c : VirtualClock) (dt : Int) : Int :=
  Int.fdiv (dt - c.epoch) 1000000

/-- One operation of a driver trace: a timestamp-synthesis call or a tick
advancement. -/
inductive Op where
  | synth (agent : Int) (parent : Option Int) (hint : String)
  | advance (n : Int)
deriving DecidableEq, Repr

/-- Run a trace of operations, collecting the synthesized timestamps in
order.  A `TypeError` from `event_time` aborts the run. -/
def run (pyhash : HashFn) (randint : RandFn) (c : VirtualClock) :
    List Op → List Int
  | [] => []
  | Op.advance n :: ops => run pyhash randint (advance_tick c n) ops
  | Op.synth a p s :: ops =>
    match event_time pyhash randint c a p s with
    | some (t, c') => t :: run pyhash randint c' ops
    | none => []

/-- Run a trace of operations, returning the final clock state.  A
`TypeError` from `event_time` aborts the run at the current state. -/
def runState (pyhash : HashFn) (randint : RandFn) (c : VirtualClock) :
    List Op → VirtualClock
  | [] => c
  | Op.advance n :: ops => runState pyhash randint (advance_tick c n) ops
  | Op.synth a p s :: ops =>
    match event_time pyhash randint c a p s with
    | some (_, c') => runState pyhash randint c' ops
    | none => c

/-- A concrete hash-function instance used by witnesses. -/
def hashZero : HashFn := fun _ _ _ _ _ => 0

/-- A concrete `randint` instance used by witnesses: always return the lower
bound of the requested range. -/
def randLo : RandFn := fun _ a _ => a

/-! ## Helper lemmas -/

/-- `randLo` satisfies the `randint` range contract. -/
theorem randLo_in_range : RandInRange randLo :=
  fun _ _ _ h => ⟨le_refl _, h⟩

theorem lookupA_insertA_self {α β : Type} [DecidableEq α]
    (l : List (α × β)) (k : α) (v : β) :
    lookupA (insertA l k v) k = some v := by
  induction l with
  | nil => simp [insertA, lookupA]
  | cons kv rest ih =>
    obtain ⟨k0, v0⟩ := kv
    by_cases h : k0 = k
    · simp [insertA, lookupA, h]
    · simp [insertA, lookupA, h, ih]

theorem lookupA_insertA_ne {α β : Type} [DecidableEq α]
    (l : List (α × β)) (k k' : α) (v : β) (h : k' ≠ k) :
    lookupA (insertA l k v) k' = lookupA l k' := by
  induction l with
  | nil => simp [insertA, lookupA, Ne.symm h]
  | cons kv rest ih =>
    obtain ⟨k0, v0⟩ := kv
    by_cases h0 : k0 = k
    · subst h0
      simp [insertA, lookupA, Ne.symm h]
    · simp [insertA, lookupA, h0, ih]

/-- The probe never leaves the inclusive range `[mn, mx]`. -/
theorem probe_bounds (used : List Int) (mn mx : Int) :
    ∀ (fuel : Nat) (g : Int), mn ≤ g → g ≤ mx →
      mn ≤ probe used mn mx g fuel ∧ probe used mn mx g fuel ≤ mx := by
  intro fuel
  induction fuel with
  | zero => intro g h1 h2; exact ⟨h1, h2⟩
  | succ n ih =>
    intro g h1 h2
    by_cases hg : g ∈ used
    · simp only [probe, if_pos hg]
      exact ih _ (by split <;> omega) (by split <;> omega)
    · simp only [probe, if_neg hg]
      exact ⟨h1, h2⟩

/-- One probe step decreases the cyclic distance to any other in-range
value by exactly one. -/
theorem emod_step (mn mx g v : Int) (h1 : mn ≤ g) (h2 : g ≤ mx)
    (h3 : mn ≤ v) (h4 : v ≤ mx) (hne : v ≠ g) :
    (v - (if g + 1 > mx then mn else g + 1)) % (mx - mn + 1)
        = (v - g) % (mx - mn + 1) - 1
      ∧ 1 ≤ (v - g) % (mx - mn + 1) := by
  have hR : (0 : Int) < mx - mn + 1 := by omega
  have hd0 : 0 ≤ (v - g) % (mx - mn + 1) := Int.emod_nonneg _ (by omega)
  have hdlt : (v - g) % (mx - mn + 1) < mx - mn + 1 := Int.emod_lt_of_pos _ hR
  have hadd : ∀ a : Int, (a + (mx - mn + 1)) % (mx - mn + 1) = a % (mx - mn + 1) := by
    intro a
    have := Int.add_mul_emod_self_left a (mx - mn + 1) 1
    rwa [mul_one] at this
  have hdne : (v - g) % (mx - mn + 1) ≠ 0 := by
    rcases le_or_lt g v with h | h
    · rw [Int.emod_eq_of_lt (by omega) (by omega)]
      omega
    · have hkey : (v - g) % (mx - mn + 1) = v - g + (mx - mn + 1) := by
        rw [← hadd (v - g), Int.emod_eq_of_lt (by omega) (by omega)]
      omega
  have hd1 : 1 ≤ (v - g) % (mx - mn + 1) := by omega
  have hstep : (v - g - 1) % (mx - mn + 1) = (v - g) % (mx - mn + 1) - 1 := by
    have hs := Int.sub_emod (v - g) 1 (mx - mn + 1)
    have h1r : (1 : Int) % (mx - mn + 1) = 1 :=
      Int.emod_eq_of_lt (by omega) (by omega)
    rw [hs, h1r, Int.emod_eq_of_lt (by omega) (by omega)]
  refine ⟨?_, hd1⟩
  by_cases hw : g + 1 > mx
  · rw [if_pos hw]
    have hg' : g = mx := by omega
    have : v - mn = v - g - 1 + (mx - mn + 1) := by omega
    rw [this, hadd, hstep]
  · rw [if_neg hw]
    have : v - (g + 1) = v - g - 1 := by omega
    rw [this, hstep]

/-- Probe correctness: if some in-range value is unused and the fuel exceeds
the cyclic distance to it, the probe returns an unused value. -/
theorem probe_fresh (used : List Int) (mn mx v : Int)
    (h3 : mn ≤ v) (h4 : v ≤ mx) (hv : v ∉ used) :
    ∀ (fuel : Nat) (g : Int), mn ≤ g → g ≤ mx →
      ((v - g) % (mx - mn + 1)).toNat < fuel →
      probe used mn mx g fuel ∉ used := by
  intro fuel
  induction fuel with
  | zero => intro g _ _ hf; exact absurd hf (Nat.not_lt_zero _)
  | succ n ih =>
    intro g h1 h2 hf
    by_cases hg : g ∈ used
    · have hne : v ≠ g := fun h => hv (h ▸ hg)
      obtain ⟨hstep, hd1⟩ := emod_step mn mx g v h1 h2 h3 h4 hne
      simp only [probe, if_pos hg]
      refine ih _ (by split <;> omega) (by split <;> omega) ?_
      rw [hstep]
      omega
    · simp only [probe, if_neg hg]
      exact hg

/-- Overflow case of `event_time` (source lines 171-175). -/
theorem event_time_overflow (pyhash : HashFn) (randint : RandFn)
    (c : VirtualClock) (a p : Int) (s : String)
    (h : tick_end_s c < p + 1) :
    event_time pyhash randint c a (some p) s = some (p + 1, c) := by
  unfold event_time
  rw [if_pos (show tick_end_s c < minTime c (some p) from h)]

/-- Overflow case with no parent: the source would raise `TypeError`. -/
theorem event_time_noparent_err (pyhash : HashFn) (randint : RandFn)
    (c : VirtualClock) (a : Int) (s : String)
    (h : tick_end_s c < minTime c none) :
    event_time pyhash randint c a none s = none := by
  unfold event_time
  rw [if_pos h]

/-- Main case of `event_time` (source lines 177-200). -/
theorem event_time_main (pyhash : HashFn) (randint : RandFn)
    (c : VirtualClock) (a : Int) (p : Option Int) (s : String)
    (h : minTime c p ≤ tick_end_s c) :
    event_time pyhash randint c a p s =
      some (synthT pyhash randint c a p s,
        synthState pyhash randint c a p s) := by
  unfold event_time
  rw [if_neg (not_lt.mpr h)]

/-- The value accepted on the main path is recorded in the current tick's
used set of the resulting state (source line 199). -/
theorem synthT_mem_synthState (pyhash : HashFn) (randint : RandFn)
    (c : VirtualClock) (a : Int) (p : Option Int) (s : String) :
    synthT pyhash randint c a p s
      ∈ usedAt (synthState pyhash randint c a p s) c.tick := by
  simp [synthState, usedAt, lookupA_insertA_self]

/-- A single `event_time` call never removes a timestamp from any tick's
used set. -/
theorem usedAt_mono_event_time (pyhash : HashFn) (randint : RandFn)
    (c : VirtualClock) (a : Int) (p : Option Int) (s : String)
    (t : Int) (c' : VirtualClock) (T x : Int)
    (he : event_time pyhash randint c a p s = some (t, c'))
    (hx : x ∈ usedAt c T) : x ∈ usedAt c' T := by
  rcases le_or_lt (minTime c p) (tick_end_s c) with hno | hov
  · rw [event_time_main pyhash randint c a p s hno] at he
    simp only [Option.some.injEq, Prod.mk.injEq] at he
    obtain ⟨rfl, rfl⟩ := he
    by_cases hT : T = c.tick
    · subst hT
      have : usedAt (synthState pyhash randint c a p s) c.tick
          = synthT pyhash randint c a p s :: usedGet c := by
        simp [synthState, usedAt, lookupA_insertA_self]
      rw [this]
      exact List.mem_cons_of_mem _ hx
    · have : usedAt (synthState pyhash randint c a p s) T = usedAt c T := by
        simp [synthState, usedAt, lookupA_insertA_ne _ _ _ _ hT]
      rw [this]
      exact hx
  · cases p with
    | some pp =>
      rw [event_time_overflow pyhash randint c a pp s hov] at he
      simp only [Option.some.injEq, Prod.mk.injEq] at he
      obtain ⟨rfl, rfl⟩ := he
      exact hx
    | none =>
      rw [event_time_noparent_err pyhash randint c a s hov] at he
      cases he

/-- `advance_tick` does not touch `used_times` (source lines 104-107). -/
theorem usedAt_advance (c : VirtualClock) (n T : Int) :
    usedAt (advance_tick c n) T = usedAt c T := rfl

/-- No sequence of operations removes a timestamp from any tick's used set. -/
theorem usedAt_mono_runState (pyhash : HashFn) (randint : RandFn) :
    ∀ (ops : List Op) (c : VirtualClock) (T x : Int), x ∈ usedAt c T →
      x ∈ usedAt (runState pyhash randint c ops) T := by
  intro ops
  induction ops with
  | nil => intro c T x hx; exact hx
  | cons op rest ih =>
    intro c T x hx
    cases op with
    | advance n =>
      simp only [runState]
      exact ih _ _ _ hx
    | synth a p s =>
      simp only [runState]
      cases he : event_time pyhash randint c a p s with
      | none => exact hx
      | some tc =>
        obtain ⟨t, c'⟩ := tc
        exact ih _ _ _ (usedAt_mono_event_time pyhash randint c a p s t c' T x he hx)

/-- `event_time` neither reads nor writes `epoch` and the stored generator
`rng`: updating them commutes with the call. -/
theorem event_time_update (pyhash : HashFn) (randint : RandFn)
    (c : VirtualClock) (e g a : Int) (p : Option Int) (s : String) :
    event_time pyhash randint { c with epoch := e, rng := g } a p s =
      (event_time pyhash randint c a p s).map
        (fun x => (x.1, { x.2 with epoch := e, rng := g })) := by
  cases c with
  | mk d ep sd tk rg ec ut =>
    rcases le_or_lt (minTime ⟨d, ep, sd, tk, rg, ec, ut⟩ p)
        (tick_end_s ⟨d, ep, sd, tk, rg, ec, ut⟩) with hno | hov
    · rw [event_time_main pyhash randint ⟨d, ep, sd, tk, rg, ec, ut⟩ a p s hno,
        event_time_main pyhash randint ⟨d, e, sd, tk, g, ec, ut⟩ a p s hno]
      rfl
    · cases p with
      | some pp =>
        rw [event_time_overflow pyhash randint ⟨d, ep, sd, tk, rg, ec, ut⟩ a pp s hov,
          event_time_overflow pyhash randint ⟨d, e, sd, tk, g, ec, ut⟩ a pp s hov]
        rfl
      | none =>
        rw [event_time_noparent_err pyhash randint ⟨d, ep, sd, tk, rg, ec, ut⟩ a s hov,
          event_time_noparent_err pyhash randint ⟨d, e, sd, tk, g, ec, ut⟩ a s hov]
        rfl

/-- The synthesized output sequence of a trace ignores `epoch` and the
stored generator `rng`. -/
theorem run_update (pyhash : HashFn) (randint : RandFn) (e g : Int) :
    ∀ (ops : List Op) (c : VirtualClock),
      run pyhash randint { c with epoch := e, rng := g } ops
        = run pyhash randint c ops := by
  intro ops
  induction ops with
  | nil => intro c; rfl
  | cons op rest ih =>
    intro c
    cases op with
    | advance n =>
      simp only [run]
      exact ih (advance_tick c n)
    | synth a p s =>
      simp only [run, event_time_update]
      cases he : event_time pyhash randint c a p s with
      | none => rfl
      | some tc =>
        obtain ⟨t, c'⟩ := tc
        simp only [Option.map_some']
        exact congrArg (t :: ·) (ih c')

/-! ## Claims -/

/-- Claim C1 (confirmed): replay determinism.  Two clocks with the same
`seed`, `tick_duration_s` and `epoch`, both in the same (e.g. freshly
constructed) tick/counter/used state, produce identical output sequences on
the identical sequence of `event_time` and `advance_tick` calls — the stored
generator `rng` (and in fact `epoch`) plays no role in synthesis. -/
theorem replay_determinism (pyhash : HashFn) (randint : RandFn)
    (c1 c2 : VirtualClock)
    (hseed : c1.seed = c2.seed)
    (hdur : c1.tick_duration_s = c2.tick_duration_s)
    (hepoch : c1.epoch = c2.epoch)
    (htick : c1.tick = c2.tick)
    (hctr : c1.event_counter = c2.event_counter)
    (hused : c1.used_times = c2.used_times)
    (ops : List Op) :
    run pyhash randint c1 ops = run pyhash randint c2 ops := by
  have h : c1 = { c2 with epoch := c1.epoch, rng := c1.rng } := by
    cases c1; cases c2
    simp_all
  rw [h, run_update]

/-- Witness for C1: two concretely different clock values (distinct stored
generators) with equal configuration replay the same trace identically. -/
theorem replay_determinism_witness :
    run hashZero randLo (mkClock 86400 0 42)
        [Op.synth 1 none "post", Op.advance 1, Op.synth 2 (some 3) "reply"]
      = run hashZero randLo { mkClock 86400 0 42 with rng := 7 }
        [Op.synth 1 none "post", Op.advance 1, Op.synth 2 (some 3) "reply"] :=
  replay_determinism hashZero randLo (mkClock 86400 0 42)
    { mkClock 86400 0 42 with rng := 7 } rfl rfl rfl rfl rfl rfl
    [Op.synth 1 none "post", Op.advance 1, Op.synth 2 (some 3) "reply"]

/-- Counterexample to claim C2 as stated: two calls that agree on
(seed, tick at call time, actor id, action hint, prior call count for that
(tick, actor) pair) — both issued on freshly constructed clocks of the same
configuration, actor 1, hint `""`, prior count 0 — return different values
when only the `parent_timestamp` argument differs (which the claim says must
not matter): with no parent the result is 0, with `parent_timestamp = 9` (the
tick end) the overflow path returns 10. -/
theorem synth_purity_counterexample :
    (event_time hashZero randLo (mkClock 10 0 42) 1 none "").map Prod.fst
        = some 0
      ∧ (event_time hashZero randLo (mkClock 10 0 42) 1 (some 9) "").map Prod.fst
        = some 10
      ∧ countGet (mkClock 10 0 42) 1 = 0 := by
  refine ⟨by decide, by decide, by decide⟩

/-- Claim C2 (amended): the value returned by `event_time` is a pure
function of (seed, tick duration, tick at call time, actor id, action hint,
prior call count for that (tick, actor) pair, the `parent_timestamp`
argument, and the set of timestamps already used in the current tick) —
independent of everything else (other actors' counters, other ticks' used
sets, `epoch`, the stored generator). -/
theorem synth_value_purity (pyhash : HashFn) (randint : RandFn)
    (c1 c2 : VirtualClock) (a : Int) (p : Option Int) (s : String)
    (hseed : c1.seed = c2.seed)
    (hdur : c1.tick_duration_s = c2.tick_duration_s)
    (htick : c1.tick = c2.tick)
    (hcnt : countGet c1 a = countGet c2 a)
    (hused : usedGet c1 = usedGet c2) :
    (event_time pyhash randint c1 a p s).map Prod.fst
      = (event_time pyhash randint c2 a p s).map Prod.fst := by
  have hstart : tick_start_s c1 = tick_start_s c2 := by
    simp [tick_start_s, htick, hdur]
  have hend : tick_end_s c1 = tick_end_s c2 := by
    simp [tick_end_s, htick, hdur]
  have hmin : minTime c1 p = minTime c2 p := by
    cases p <;> simp [minTime, hstart]
  have hT : synthT pyhash randint c1 a p s = synthT pyhash randint c2 a p s := by
    simp [synthT, hmin, hend, hseed, htick, hcnt, hused]
  unfold event_time
  rw [hmin, hend, hT]
  split
  · cases p <;> rfl
  · rfl

/-- Witness for the amended C2: a fresh clock and a clock with a different
epoch, a different stored generator and a counter entry for another actor
return the same value for the same call. -/
theorem synth_value_purity_witness :
    (event_time hashZero randLo (mkClock 10 0 42) 1 (some 3) "x").map Prod.fst
      = (event_time hashZero randLo
          { mkClock 10 5 42 with rng := 99, event_counter := [((0, 7), 3)] }
          1 (some 3) "x").map Prod.fst :=
  synth_value_purity hashZero randLo (mkClock 10 0 42)
    { mkClock 10 5 42 with rng := 99, event_counter := [((0, 7), 3)] }
    1 (some 3) "x" rfl rfl rfl (by decide) (by decide)

/-- Claim C3 (confirmed): causality.  Any call with a parent timestamp `p`
that returns a value `t` satisfies `p < t`: the overflow path returns
`p + 1`, and on the main path the draw starts at `p + 1` and the probe's
wrap-around never goes below `p + 1`. -/
theorem causality (pyhash : HashFn) (randint : RandFn)
    (hr : RandInRange randint) (c : VirtualClock) (a p : Int) (s : String)
    (t : Int) (c' : VirtualClock)
    (he : event_time pyhash randint c a (some p) s = some (t, c')) :
    p < t := by
  rcases le_or_lt (minTime c (some p)) (tick_end_s c) with hno | hov
  · rw [event_time_main pyhash randint c a (some p) s hno] at he
    simp only [Option.some.injEq, Prod.mk.injEq] at he
    obtain ⟨rfl, rfl⟩ := he
    have hmin : minTime c (some p) = p + 1 := rfl
    have hg := hr (pyhash c.seed c.tick a s (countGet c a))
      (minTime c (some p)) (tick_end_s c) hno
    have hb := probe_bounds (usedGet c) (minTime c (some p)) (tick_end_s c)
      (tick_end_s c - minTime c (some p) + 1).toNat _ hg.1 hg.2
    have := hb.1
    unfold synthT
    omega
  · rw [event_time_overflow pyhash randint c a p s hov] at he
    simp only [Option.some.injEq, Prod.mk.injEq] at he
    obtain ⟨rfl, rfl⟩ := he
    omega

/-- Witness for C3: a concrete call with parent 4 returns 5 > 4. -/
theorem causality_witness :
    event_time hashZero randLo (mkClock 10 0 42) 2 (some 4) ""
        = some (5, ⟨10, 0, 42, 0, 42, [((0, 2), 1)], [(0, [5])]⟩)
      ∧ (4 : Int) < 5 :=
  ⟨by decide, causality hashZero randLo randLo_in_range (mkClock 10 0 42)
    2 4 "" 5 ⟨10, 0, 42, 0, 42, [((0, 2), 1)], [(0, [5])]⟩ (by decide)⟩

/-- If some value of the valid range `[min_time, max_time]` is still unused
(the exhaustion case does not apply), the main path's result is unused. -/
theorem synthT_not_used (pyhash : HashFn) (randint : RandFn)
    (hr : RandInRange randint) (c : VirtualClock) (a : Int) (p : Option Int)
    (s : String) (hno : minTime c p ≤ tick_end_s c)
    (hfree : ∃ v, minTime c p ≤ v ∧ v ≤ tick_end_s c ∧ v ∉ usedGet c) :
    synthT pyhash randint c a p s ∉ usedGet c := by
  obtain ⟨v, hv1, hv2, hv3⟩ := hfree
  have hg := hr (pyhash c.seed c.tick a s (countGet c a))
    (minTime c p) (tick_end_s c) hno
  apply probe_fresh (usedGet c) (minTime c p) (tick_end_s c) v hv1 hv2 hv3
    (tick_end_s c - minTime c p + 1).toNat _ hg.1 hg.2
  have hlt : (v - randint (pyhash c.seed c.tick a s (countGet c a))
        (minTime c p) (tick_end_s c)) % (tick_end_s c - minTime c p + 1)
      < tick_end_s c - minTime c p + 1 :=
    Int.emod_lt_of_pos _ (by omega)
  have hge : 0 ≤ (v - randint (pyhash c.seed c.tick a s (countGet c a))
        (minTime c p) (tick_end_s c)) % (tick_end_s c - minTime c p + 1) :=
    Int.emod_nonneg _ (by omega)
  omega

/-- Counterexample to claim C4 as stated (its quantifier covers calls that
take the parent-overflow path): two calls in the same tick — the clock state,
including `tick = 0`, is untouched by the first call — both with
`parent_timestamp = 9` at the end of tick 0, both return 10.  Neither call
reaches the uniqueness probe, so neither hits the exhaustion case. -/
theorem uniqueness_counterexample :
    run hashZero randLo (mkClock 10 0 42)
        [Op.synth 1 (some 9) "", Op.synth 2 (some 9) ""] = [10, 10]
      ∧ runState hashZero randLo (mkClock 10 0 42) [Op.synth 1 (some 9) ""]
        = mkClock 10 0 42 := by
  refine ⟨by decide, by decide⟩

/-- Claim C4 (amended): uniqueness within a tick for non-overflow calls.
For any two synthesis calls issued while the tick has the same value — with
arbitrary other operations interleaved — where both calls take the
non-overflow path and the later call's valid range is not fully occupied
(the probe-exhaustion case does not apply to it), the returned timestamps
differ. -/
theorem uniqueness_within_tick (pyhash : HashFn) (randint : RandFn)
    (hr : RandInRange randint) (c c2 : VirtualClock) (a1 a2 : Int)
    (p1 p2 : Option Int) (s1 s2 : String) (t1 t2 : Int)
    (c1 c2' : VirtualClock) (ops : List Op)
    (h1 : event_time pyhash randint c a1 p1 s1 = some (t1, c1))
    (hno1 : minTime c p1 ≤ tick_end_s c)
    (hmid : runState pyhash randint c1 ops = c2)
    (htick : c2.tick = c.tick)
    (hno2 : minTime c2 p2 ≤ tick_end_s c2)
    (hfree : ∃ v, minTime c2 p2 ≤ v ∧ v ≤ tick_end_s c2 ∧ v ∉ usedGet c2)
    (h2 : event_time pyhash randint c2 a2 p2 s2 = some (t2, c2')) :
    t1 ≠ t2 := by
  rw [event_time_main pyhash randint c a1 p1 s1 hno1] at h1
  simp only [Option.some.injEq, Prod.mk.injEq] at h1
  obtain ⟨rfl, rfl⟩ := h1
  rw [event_time_main pyhash randint c2 a2 p2 s2 hno2] at h2
  simp only [Option.some.injEq, Prod.mk.injEq] at h2
  obtain ⟨rfl, rfl⟩ := h2
  have ht1 : synthT pyhash randint c a1 p1 s1 ∈ usedGet c2 := by
    have hm := usedAt_mono_runState pyhash randint ops
      (synthState pyhash randint c a1 p1 s1) c.tick
      (synthT pyhash randint c a1 p1 s1)
      (synthT_mem_synthState pyhash randint c a1 p1 s1)
    rw [hmid] at hm
    unfold usedGet
    rw [htick]
    exact hm
  have ht2 : synthT pyhash randint c2 a2 p2 s2 ∉ usedGet c2 :=
    synthT_not_used pyhash randint hr c2 a2 p2 s2 hno2 hfree
  intro hEq
  rw [hEq] at ht1
  exact ht2 ht1

/-- Witness for the amended C4: on a fresh clock two successive no-parent
calls by the same actor return 0 then 1 — distinct values. -/
theorem uniqueness_within_tick_witness :
    run hashZero randLo (mkClock 10 0 42)
        [Op.synth 1 none "", Op.synth 1 none ""] = [0, 1]
      ∧ (0 : Int) ≠ 1 :=
  ⟨by decide,
    uniqueness_within_tick hashZero randLo randLo_in_range
      (mkClock 10 0 42) ⟨10, 0, 42, 0, 42, [((0, 1), 1)], [(0, [0])]⟩
      1 1 none none "" "" 0 1
      ⟨10, 0, 42, 0, 42, [((0, 1), 1)], [(0, [0])]⟩
      ⟨10, 0, 42, 0, 42, [((0, 1), 2)], [(0, [1, 0])]⟩ []
      (by decide) (by decide) (by decide) (by decide) (by decide)
      ⟨1, by decide, by decide, by decide⟩ (by decide)⟩

/-- Claim C5 (confirmed, without even needing the exhaustion exclusion):
every call with no parent returns a value inside the current tick's range
`[tick * duration, (tick + 1) * duration - 1]`; the probe's wrap-around
keeps the candidate inside `[min_allowed, tick_end]` at every step
(`probe_bounds`). -/
theorem range_containment (pyhash : HashFn) (randint : RandFn)
    (hr : RandInRange randint) (c : VirtualClock) (a : Int) (s : String)
    (t : Int) (c' : VirtualClock)
    (he : event_time pyhash randint c a none s = some (t, c')) :
    c.tick * c.tick_duration_s ≤ t
      ∧ t ≤ (c.tick + 1) * c.tick_duration_s - 1 := by
  rcases le_or_lt (minTime c none) (tick_end_s c) with hno | hov
  · rw [event_time_main pyhash randint c a none s hno] at he
    simp only [Option.some.injEq, Prod.mk.injEq] at he
    obtain ⟨rfl, rfl⟩ := he
    have hg := hr (pyhash c.seed c.tick a s (countGet c a))
      (minTime c none) (tick_end_s c) hno
    exact probe_bounds (usedGet c) (minTime c none) (tick_end_s c)
      (tick_end_s c - minTime c none + 1).toNat
      (randint (pyhash c.seed c.tick a s (countGet c a))
        (minTime c none) (tick_end_s c)) hg.1 hg.2
  · rw [event_time_noparent_err pyhash randint c a s hov] at he
    exact Option.noConfusion he

/-- Witness for C5: a concrete no-parent call on a fresh clock returns 0,
inside `[0, 9]`. -/
theorem range_containment_witness :
    (mkClock 10 0 42).tick * (mkClock 10 0 42).tick_duration_s ≤ 0
      ∧ (0 : Int) ≤ ((mkClock 10 0 42).tick + 1)
          * (mkClock 10 0 42).tick_duration_s - 1 :=
  range_containment hashZero randLo randLo_in_range (mkClock 10 0 42) 3 "" 0
    ⟨10, 0, 42, 0, 42, [((0, 3), 1)], [(0, [0])]⟩ (by decide)

/-- Claim C6 (confirmed): parent-overflow spillover.  Whenever
`parent_timestamp + 1` exceeds the current tick's end, the call returns
exactly `parent_timestamp + 1`, bypassing the draw and the uniqueness
check. -/
theorem parent_overflow_spillover (pyhash : HashFn) (randint : RandFn)
    (c : VirtualClock) (a p : Int) (s : String)
    (hov : tick_end_s c < p + 1) :
    (event_time pyhash randint c a (some p) s).map Prod.fst = some (p + 1) := by
  rw [event_time_overflow pyhash randint c a p s hov]
  rfl

/-- Witness for C6: the spec's Scenario 3 — `tick_duration_s = 86400`,
`tick = 0`, `parent_timestamp = 86399` returns exactly 86400. -/
theorem parent_overflow_spillover_witness :
    (event_time hashZero randLo (mkClock 86400 0 42) 1 (some 86399) "").map
        Prod.fst = some 86400 :=
  parent_overflow_spillover hashZero randLo (mkClock 86400 0 42) 1 86399 ""
    (by decide)

/-- Claim C7 (code bug): `advance_tick` performs no validation at all —
`self.tick += n` runs for any `n`.  On a fresh clock, `advance_tick(-1)`
returns normally and leaves `tick = -1` (time moved backward), and
`advance_tick(0)` returns normally leaving `tick = 0` (time did not move),
both contradicting the claimed fail-fast behaviour and the
"`current_tick` only increases" invariant. -/
theorem advance_no_validation :
    (advance_tick (mkClock 86400 0 42) (-1)).tick = -1
      ∧ (advance_tick (mkClock 86400 0 42) 0).tick = 0 := by
  refine ⟨by decide, by decide⟩

/-- Claim C8 (confirmed): for every `n`, `advance_tick n` adds `n` to the
tick and empties the per-(tick, actor) call counter, leaving the tick
duration, epoch, seed, the used-timestamps history and the stored random
source unchanged. -/
theorem advance_effect_frame (c : VirtualClock) (n : Int) :
    (advance_tick c n).tick = c.tick + n
      ∧ (advance_tick c n).event_counter = []
      ∧ (advance_tick c n).tick_duration_s = c.tick_duration_s
      ∧ (advance_tick c n).epoch = c.epoch
      ∧ (advance_tick c n).seed = c.seed
      ∧ (advance_tick c n).used_times = c.used_times
      ∧ (advance_tick c n).rng = c.rng :=
  ⟨rfl, rfl, rfl, rfl, rfl, rfl, rfl⟩

/-- Counterexample to claim C9 as stated: at the instant half a second
before the epoch (−500000 microseconds), `from_datetime` — which applies
Python's `int()`, truncation toward zero — returns 0, while
`floor(d - epoch)` is −1. -/
theorem from_calendar_floor_counterexample :
    from_datetime (mkClock 86400 0 42) (-500000) = 0
      ∧ from_calendar_spec (mkClock 86400 0 42) (-500000) = -1
      ∧ from_datetime (mkClock 86400 0 42) (-500000)
        ≠ from_calendar_spec (mkClock 86400 0 42) (-500000) := by
  refine ⟨by decide, by decide, by decide⟩

/-- Claim C9 (amended): `from_datetime` truncates toward zero, which agrees
with `floor(d - epoch)` for every instant `d` at or after the epoch (but not
before it); the round trip `from_datetime (to_datetime v) = v` holds for
every non-negative integer `v`. -/
theorem from_calendar_trunc_roundtrip (c : VirtualClock) (dt v : Int)
    (hdt : c.epoch ≤ dt) (hv : 0 ≤ v) :
    from_datetime c dt = from_calendar_spec c dt
      ∧ from_datetime c (to_datetime c v) = v := by
  constructor
  · unfold from_datetime from_calendar_spec
    rw [Int.tdiv_eq_ediv (by omega) (by norm_num),
      Int.fdiv_eq_ediv _ (by norm_num)]
  · unfold from_datetime to_datetime
    have h : c.epoch + v * 1000000 - c.epoch = v * 1000000 := by ring
    rw [h, Int.mul_tdiv_cancel _ (by norm_num)]

/-- Witness for the amended C9: 2.5 virtual seconds after the epoch both
conversions give 2, and the round trip returns 7 for input 7. -/
theorem from_calendar_trunc_roundtrip_witness :
    from_datetime (mkClock 86400 0 42) 2500000
        = from_calendar_spec (mkClock 86400 0 42) 2500000
      ∧ from_datetime (mkClock 86400 0 42)
          (to_datetime (mkClock 86400 0 42) 7) = 7 :=
  from_calendar_trunc_roundtrip (mkClock 86400 0 42) 2500000 7
    (by decide) (by decide)

/-- Claim C10 (confirmed): the parent-overflow path returns without
modifying any clock state — the resulting state is exactly the input state,
so neither the per-(tick, actor) counter nor the used-timestamp set changes. -/
theorem overflow_state_frame (pyhash : HashFn) (randint : RandFn)
    (c : VirtualClock) (a p : Int) (s : String)
    (hov : tick_end_s c < p + 1) :
    (event_time pyhash randint c a (some p) s).map Prod.snd = some c := by
  rw [event_time_overflow pyhash randint c a p s hov]
  rfl

/-- Witness for C10: a concrete overflow call leaves the fresh clock
unchanged. -/
theorem overflow_state_frame_witness :
    (event_time hashZero randLo (mkClock 10 0 42) 1 (some 9) "").map Prod.snd
      = some (mkClock 10 0 42) :=
  overflow_state_frame hashZero randLo (mkClock 10 0 42) 1 9 "" (by decide)
